import Mathlib

/-!
Verification development for the smshub-agent repository: a middleware
bridge between physical GSM modems and the SMS Hub activation service,
together with its administrative dashboard frontend.

The dashboard frontend (TypeScript/React) is present in the repository and
is embedded directly from its source files:
  - `frontend/src/services/api.ts` (the dashboard's API surface),
  - the `smsSlice` Redux slice (`updateMessageDeliveryStatus` reducer),
  - the `activationsSlice` Redux slice,
  - `formatDuration` (formatting utilities).
The core bridge (modem registry, activation coordinator, SMS forwarder,
persistence log) is specified but its implementation files are not in the
repository snapshot; those parts are modelled from the specification and
carry a doc comment starting with `Modelled from the spec:`.
-/

/- ===== Formatting utilities (source: formatDuration in the utils file) ===== -/

/-- JavaScript `Math.round` on a rational: round half away from zero is
`⌊q + 1/2⌋` for the non-negative inputs `formatDuration` is used with. -/
def jsRound (q : ℚ) : ℤ := ⌊q + 1/2⌋

/-- Embedding of `formatDuration` from the frontend utils:
`seconds < 60` renders rounded seconds with `"s"`, `seconds < 3600` renders
rounded minutes with `"m"`, otherwise rounded hours with `"h"`. -/
def formatDuration (seconds : ℚ) : String :=
  if seconds < 60 then
    toString (jsRound seconds) ++ "s"
  else if seconds < 3600 then
    toString (jsRound (seconds / 60)) ++ "m"
  else
    toString (jsRound (seconds / 3600)) ++ "h"

/- ===== SMS Redux slice (source: smsSlice in the store slices) ===== -/

/-- One SMS message as held by the frontend SMS slice.  Fields not touched
by the `updateMessageDeliveryStatus` reducer (`sms_id`, `modem_id`,
`phone_from`, `phone_to`, timestamps) are summarised by the carried
`text` field; the reducer-relevant fields are exact. -/
structure SMSMsg where
  id : Nat
  text : String
  delivered : Bool
  delivery_attempts : Nat
  last_error : Option String
  deriving DecidableEq, Repr

/-- The SMS slice state: `messages`, `selectedMessage`,
`undeliveredMessages`, plus the loading/error flags. -/
structure SMSState where
  messages : List SMSMsg
  selectedMessage : Option SMSMsg
  undeliveredMessages : List SMSMsg
  isLoading : Bool
  error : Option String
  deriving DecidableEq, Repr

/-- JavaScript `error || null`: a missing error and the empty string are
both falsy, so they are stored as `null`; a non-empty string is kept. -/
def errOrNull (e : Option String) : Option String :=
  match e with
  | some s => if s = "" then none else some s
  | none => none

/-- In-place mutation of the object returned by `Array.prototype.find`:
only the first element satisfying the predicate is updated. -/
def updFirst (p : α → Bool) (f : α → α) : List α → List α
  | [] => []
  | x :: xs => if p x then f x :: xs else x :: updFirst p f xs

/-- The field assignments the reducer performs on a found message object:
`delivered`, `last_error = error || null`, `delivery_attempts += 1`. -/
def deliveryUpdate (m : SMSMsg) (delivered : Bool) (err : Option String) : SMSMsg :=
  { m with delivered := delivered, last_error := errOrNull err,
           delivery_attempts := m.delivery_attempts + 1 }

/-- Embedding of the `updateMessageDeliveryStatus` reducer of the SMS
slice.  It updates the first matching entry of `messages`; in
`undeliveredMessages` it removes every entry with the id when the action
says delivered, and otherwise bumps the attempt count and error of the
first matching entry; `selectedMessage` is replaced when its id matches. -/
def updateMessageDeliveryStatus (st : SMSState) (id : Nat) (delivered : Bool)
    (err : Option String) : SMSState :=
  let messages' := updFirst (fun m => m.id = id)
    (fun m => deliveryUpdate m delivered err) st.messages
  let undelivered' :=
    match st.undeliveredMessages.find? (fun m => m.id = id) with
    | some _ =>
        if delivered then
          st.undeliveredMessages.filter (fun m => !(m.id = id))
        else
          updFirst (fun m => m.id = id)
            (fun m => { m with delivery_attempts := m.delivery_attempts + 1,
                               last_error := errOrNull err })
            st.undeliveredMessages
    | none => st.undeliveredMessages
  let selected' :=
    match st.selectedMessage with
    | some m => if m.id = id then some (deliveryUpdate m delivered err) else some m
    | none => none
  { st with messages := messages', undeliveredMessages := undelivered',
            selectedMessage := selected' }

/-- Modelled from the spec: the SMS Forwarder's bounded push-retry loop
(§4.4), whose implementation file is not in the repository snapshot.  Each
entry of the outcome list is one Hub push attempt within the retry bound
(`none` = success, `some e` = network failure with error `e`); after each
attempt the record is updated exactly as the delivery-status reducer does,
and the loop stops at the first success or when the bounded attempts are
exhausted. -/
def pushRetry (m : SMSMsg) : List (Option String) → SMSMsg
  | [] => m
  | o :: os =>
      match o with
      | none => deliveryUpdate m true none
      | some e => pushRetry (deliveryUpdate m false (some e)) os

/- ===== Dashboard API surface (source: frontend/src/services/api.ts) ===== -/

/-- HTTP methods used by the dashboard `ApiService`. -/
inductive HttpMethod where
  | get
  | post
  | put
  | delete
  deriving DecidableEq, Repr

/-- One method of the dashboard `ApiService`: its name, the HTTP method it
issues, and the path it targets. -/
structure ApiCall where
  name : String
  method : HttpMethod
  path : String
  deriving DecidableEq, Repr

/-- A call is a read-only query exactly when it issues a GET; POST, PUT and
DELETE requests create, update or delete core state. -/
def isReadOnly (c : ApiCall) : Bool := c.method = HttpMethod.get

/-- The operations `ApiService` performs against the core's modem,
activation, SMS and monitoring endpoints, transcribed from `api.ts`
(auth/user endpoints excluded: they target auth, not core state). -/
def dashboardCalls : List ApiCall :=
  [⟨"getModems", .get, "/modems"⟩,
   ⟨"getModem", .get, "/modems/:id"⟩,
   ⟨"createModem", .post, "/modems"⟩,
   ⟨"updateModem", .put, "/modems/:id"⟩,
   ⟨"deleteModem", .delete, "/modems/:id"⟩,
   ⟨"connectModem", .post, "/modems/:id/connect"⟩,
   ⟨"disconnectModem", .post, "/modems/:id/disconnect"⟩,
   ⟨"getActivations", .get, "/activations"⟩,
   ⟨"getActivation", .get, "/activations/:id"⟩,
   ⟨"createActivation", .post, "/activations"⟩,
   ⟨"updateActivation", .put, "/activations/:id"⟩,
   ⟨"getMessages", .get, "/sms"⟩,
   ⟨"getMessage", .get, "/sms/:id"⟩,
   ⟨"getUndeliveredMessages", .get, "/sms/undelivered"⟩,
   ⟨"getSystemMetrics", .get, "/monitoring/metrics"⟩,
   ⟨"getHealth", .get, "/monitoring/health"⟩,
   ⟨"getModemStats", .get, "/monitoring/stats/modems"⟩,
   ⟨"getActivationStats", .get, "/monitoring/stats/activations"⟩,
   ⟨"getSMSStats", .get, "/monitoring/stats/sms"⟩,
   ⟨"getHourlyStats", .get, "/monitoring/stats/hourly"⟩,
   ⟨"getErrorStats", .get, "/monitoring/stats/errors"⟩]

/-- The reporting subset named by the spec: list/detail of modems,
activations and SMS records, and the monitoring statistics. -/
def reportingCalls : List ApiCall :=
  [⟨"getModems", .get, "/modems"⟩,
   ⟨"getModem", .get, "/modems/:id"⟩,
   ⟨"getActivations", .get, "/activations"⟩,
   ⟨"getActivation", .get, "/activations/:id"⟩,
   ⟨"getMessages", .get, "/sms"⟩,
   ⟨"getMessage", .get, "/sms/:id"⟩,
   ⟨"getUndeliveredMessages", .get, "/sms/undelivered"⟩,
   ⟨"getSystemMetrics", .get, "/monitoring/metrics"⟩,
   ⟨"getHealth", .get, "/monitoring/health"⟩,
   ⟨"getModemStats", .get, "/monitoring/stats/modems"⟩,
   ⟨"getActivationStats", .get, "/monitoring/stats/activations"⟩,
   ⟨"getSMSStats", .get, "/monitoring/stats/sms"⟩,
   ⟨"getHourlyStats", .get, "/monitoring/stats/hourly"⟩,
   ⟨"getErrorStats", .get, "/monitoring/stats/errors"⟩]

/- ===== Core bridge transition system (modelled from the spec) ===== -/

namespace Bridge

/-- Modelled from the spec: the modem lifecycle states of §3 (the modem
manager implementation is not in the repository snapshot). -/
inductive ModemStatus where
  | initializing
  | ready
  | busy
  | error
  | offline
  deriving DecidableEq, Repr

/-- Modelled from the spec: one physical modem of the Modem Registry (§3),
keyed by port, with its bound phone number and telemetry identity. -/
structure Modem where
  port : String
  phone : String
  country : String
  operator : String
  mstatus : ModemStatus
  deriving DecidableEq, Repr

/-- Modelled from the spec: one activation row (§3).  The activation id is
generated at creation and equals the row's index in the append-only
activation list, so it does not need to be stored in the row. -/
structure Activation where
  phone : String
  service : String
  status : Nat
  deriving DecidableEq, Repr

/-- Modelled from the spec: one received-SMS record (§3); `activationId`
is `none` for an orphan message. -/
structure SmsRec where
  activationId : Option Nat
  sender : String
  text : String
  deriving DecidableEq, Repr

/-- Modelled from the spec: the persisted bridge state — the modem table,
the append-only activation list (ids are indices), the per-phone usage
record (last service bound to the phone and its use count, §4.3), and the
SMS log. -/
structure State where
  modems : List Modem
  acts : List Activation
  usage : String → Option (String × Nat)
  smsLog : List SmsRec

/-- Modelled from the spec: the operations that can reach the coordinator
and registry — the Hub protocol calls GET_NUMBER and FINISH_ACTIVATION
(§6), an inbound SMS observed by a modem session (§4.4), and a process
restart (§8); there is no timer or internal cleanup actor (§3, non-goal). -/
inductive Op where
  | getNumber (service : String) (country operatorF : Option String)
  | finishActivation (id : Nat) (status : Nat)
  | smsReceived (port sender text : String)
  | restart
  deriving DecidableEq, Repr

/-- Modelled from the spec: responses of the protocol surface — a reserved
number, the typed NoCapacity error, the FINISH_ACTIVATION ack, the typed
not-found rejection, and a plain ok for internal events. -/
inductive Resp where
  | number (id : Nat) (phone : String)
  | noCapacity
  | ack
  | notFound
  | ok
  deriving DecidableEq, Repr

/-- The active statuses of §3: 1 Waiting and 2 Ready. -/
def isActive (st : Nat) : Bool := st = 1 || st = 2

/-- Whether some activation in the list is active and bound to phone `p`. -/
def hasActiveBinding (acts : List Activation) (p : String) : Bool :=
  acts.any (fun a => a.phone = p && isActive a.status)

/-- The usage count recorded for the (phone, service) pair: the stored
count when `sv` is the last service bound to the phone, otherwise 0
(a different service fully resets the pair's count, §4.3 and §9). -/
def usageCountFor (u : String → Option (String × Nat)) (p sv : String) : Nat :=
  match u p with
  | some (sv', c) => if sv' = sv then c else 0
  | none => 0

/-- An optional country/operator criterion matches when absent or equal. -/
def matchesFilter (v : String) (f : Option String) : Bool :=
  match f with
  | some x => v = x
  | none => true

/-- Modelled from the spec: GET_NUMBER candidacy (§4.2, §4.3) — the modem
is Ready, matches the country/operator filter, its phone has no active
activation bound, and the (phone, service) usage count is below 4. -/
def candOk (s : State) (sv : String) (co opf : Option String) (m : Modem) : Bool :=
  m.mstatus = ModemStatus.ready
  && matchesFilter m.country co
  && matchesFilter m.operator opf
  && !(hasActiveBinding s.acts m.phone)
  && decide (usageCountFor s.usage m.phone sv < 4)

/-- Pointwise update of the usage record at one phone key. -/
def fupdate (u : String → Option (String × Nat)) (k : String)
    (v : Option (String × Nat)) : String → Option (String × Nat) :=
  fun k' => if k' = k then v else u k'

/-- Modelled from the spec: one serialized step of the bridge (§4.2–§4.4,
§5).  GET_NUMBER atomically reserves the first candidate modem
(Ready→Busy), appends a Waiting activation, and re-keys the phone's usage
record to the requested service (keeping the count when the service is
unchanged, resetting it to 0 otherwise); on failure it returns the typed
NoCapacity error and leaves the state untouched.  FINISH_ACTIVATION with
an unknown id is rejected with the typed not-found response and no
mutation; with a known id the supplied status is applied unconditionally,
the usage count of the activation's (phone, service) pair increments
exactly on a transition into status 4, and the modem is released to Ready
when the activation leaves the active states.  An inbound SMS only appends
to the SMS log (orphan when its modem has no active binding); restart
preserves the persisted state exactly. -/
def step (s : State) (op : Op) : State × Resp :=
  match op with
  | .getNumber sv co opf =>
    match s.modems.find? (candOk s sv co opf) with
    | none => (s, .noCapacity)
    | some m =>
      let id := s.acts.length
      let usage' := fupdate s.usage m.phone (some (sv, usageCountFor s.usage m.phone sv))
      let modems' := s.modems.map
        (fun m' => if m'.port = m.port then { m' with mstatus := ModemStatus.busy } else m')
      ({ s with modems := modems', acts := s.acts ++ [⟨m.phone, sv, 1⟩],
                usage := usage' }, .number id m.phone)
  | .finishActivation id st =>
    if h : id < s.acts.length then
      let a := s.acts[id]
      let usage' :=
        if st = 4 && !(a.status = 4) then
          match s.usage a.phone with
          | some (sv', c) =>
              if sv' = a.service then fupdate s.usage a.phone (some (sv', c + 1))
              else s.usage
          | none => s.usage
        else s.usage
      let modems' :=
        if isActive st then s.modems
        else s.modems.map
          (fun m => if m.phone = a.phone && m.mstatus = ModemStatus.busy then
              { m with mstatus := ModemStatus.ready } else m)
      ({ s with acts := s.acts.set id { a with status := st }, usage := usage',
                modems := modems' }, .ack)
    else (s, .notFound)
  | .smsReceived port sender text =>
    let r : SmsRec :=
      match s.modems.find? (fun m => m.port = port) with
      | some m =>
        match s.acts.findIdx? (fun a => a.phone = m.phone && isActive a.status) with
        | some i => ⟨some i, sender, text⟩
        | none => ⟨none, sender, text⟩
      | none => ⟨none, sender, text⟩
    ({ s with smsLog := s.smsLog ++ [r] }, .ok)
  | .restart => (s, .ok)

/-- Running a list of operations from a state. -/
def run (s : State) : List Op → State
  | [] => s
  | op :: ops => run (step s op).1 ops

/-- Number of active activations bound to phone `p`. -/
def activePerPhone (s : State) (p : String) : Nat :=
  s.acts.countP (fun a => a.phone = p && isActive a.status)

/-- A bridge state with no modems at all. -/
def emptyState : State := ⟨[], [], fun _ => none, []⟩

/-- A one-modem starting state used for concrete traces. -/
def oneModem : Modem := ⟨"p1", "ph", "c", "o", ModemStatus.ready⟩

/-- Initial bridge state with a single Ready modem and empty history. -/
def state0 : State := ⟨[oneModem], [], fun _ => none, []⟩

/-- The trace in which the Hub repeatedly finishes activation 0 back into
status 4 after moving it out: each re-entry into status 4 increments the
(phone, service) usage count. -/
def toggleTrace : List Op :=
  [.getNumber "s1" none none,
   .finishActivation 0 4, .finishActivation 0 3,
   .finishActivation 0 4, .finishActivation 0 3,
   .finishActivation 0 4, .finishActivation 0 3,
   .finishActivation 0 4, .finishActivation 0 3,
   .finishActivation 0 4]

/-- The trace in which the Hub finishes activation 0, lets GET_NUMBER bind
a second activation to the same phone, then unconditionally moves
activation 0 back into the active status 2. -/
def reviveTrace : List Op :=
  [.getNumber "s1" none none, .finishActivation 0 3,
   .getNumber "s1" none none, .finishActivation 0 2]

end Bridge

/- ===== Helper lemmas ===== -/

theorem updFirst_of_forall_neg {α : Type} {p : α → Bool} {f : α → α} {l : List α}
    (h : ∀ x ∈ l, p x = false) : updFirst p f l = l := by
  induction l with
  | nil => rfl
  | cons x xs ih =>
    rw [updFirst, if_neg (by simp [h x (by simp)]),
      ih (fun y hy => h y (by simp [hy]))]

theorem find?_split {α : Type} {p : α → Bool} {l : List α} {m : α}
    (h : l.find? p = some m) :
    ∃ l1 l2, l = l1 ++ m :: l2 ∧ (∀ x ∈ l1, p x = false) := by
  induction l with
  | nil => simp [List.find?] at h
  | cons x xs ih =>
    by_cases hx : p x
    · refine ⟨[], xs, ?_, by simp⟩
      simp [List.find?, hx] at h
      simp [h]
    · simp only [List.find?, Bool.not_eq_true] at hx
      rw [List.find?] at h
      rw [hx] at h
      obtain ⟨l1, l2, hl, hneg⟩ := ih h
      exact ⟨x :: l1, l2, by simp [hl], by
        intro y hy
        rcases List.mem_cons.mp hy with rfl | hy'
        · exact hx
        · exact hneg y hy'⟩

theorem updFirst_append {α : Type} {p : α → Bool} {f : α → α} {l1 l2 : List α} {m : α}
    (h : ∀ x ∈ l1, p x = false) (hm : p m = true) :
    updFirst p f (l1 ++ m :: l2) = l1 ++ f m :: l2 := by
  induction l1 with
  | nil => simp [updFirst, hm]
  | cons x xs ih =>
    rw [List.cons_append, updFirst, if_neg (by simp [h x (by simp)]),
      ih (fun y hy => h y (by simp [hy])), List.cons_append]

theorem countP_set {α : Type} (l : List α) (i : Nat) (x : α) (p : α → Bool)
    (h : i < l.length) :
    (l.set i x).countP p + (if p l[i] then 1 else 0)
      = l.countP p + (if p x then 1 else 0) := by
  induction l generalizing i with
  | nil => simp at h
  | cons a as ih =>
    cases i with
    | zero => simp [List.countP_cons]; omega
    | succ n =>
      simp only [List.set, List.countP_cons, List.getElem_cons_succ]
      have := ih n (by simpa using h)
      omega

/- ===== C10: formatDuration ===== -/

/-- C10: for every non-negative number of seconds `s`, `formatDuration`
returns the JS-rounded seconds with `"s"` when `s < 60`, the rounded
minutes with `"m"` when `60 ≤ s < 3600`, and the rounded hours with `"h"`
when `s ≥ 3600`; the boundaries are tested on the raw input, so an input
just below 60 can round up and render as `"60s"`. -/
theorem formatDuration_spec (s : ℚ) (_hs : 0 ≤ s) :
    (s < 60 → formatDuration s = toString (jsRound s) ++ "s") ∧
    (60 ≤ s → s < 3600 → formatDuration s = toString (jsRound (s / 60)) ++ "m") ∧
    (3600 ≤ s → formatDuration s = toString (jsRound (s / 3600)) ++ "h") := by
  unfold formatDuration
  refine ⟨fun h => by rw [if_pos h], fun h1 h2 => ?_, fun h => ?_⟩
  · rw [if_neg (by linarith), if_pos h2]
  · rw [if_neg (by linarith), if_neg (by linarith)]

/-- C10 witness: 59.6 seconds is just below the minute boundary and renders
as `"60s"`, not `"1m"`. -/
theorem formatDuration_spec_witness : formatDuration (59.6 : ℚ) = "60s" := by
  have h := (formatDuration_spec 59.6 (by norm_num)).1 (by norm_num)
  rw [h]
  have hr : jsRound (59.6 : ℚ) = 60 := by norm_num [jsRound]
  rw [hr]
  rfl

/- ===== C3: dashboard operations against the core ===== -/

/-- C3 (counterexample): `createModem` is one of the dashboard API
service's operations against the core and issues a POST, so it is not
true that every dashboard operation is a read-only query. -/
theorem dashboard_mutating_call_cex :
    (⟨"createModem", HttpMethod.post, "/modems"⟩ : ApiCall) ∈ dashboardCalls ∧
    isReadOnly ⟨"createModem", HttpMethod.post, "/modems"⟩ = false := by decide

/-- C3 (amended): the dashboard's reporting operations over modems,
activations and SMS records (and the monitoring statistics) are all
read-only GET queries, but the dashboard API service additionally exposes
mutating POST/PUT/DELETE operations against the core (createModem,
updateModem, deleteModem, connectModem, disconnectModem, createActivation,
updateActivation), so not every dashboard operation is read-only. -/
theorem dashboard_reporting_readonly :
    (∀ c ∈ reportingCalls, c ∈ dashboardCalls ∧ isReadOnly c = true) ∧
    ¬(∀ c ∈ dashboardCalls, isReadOnly c = true) := by decide

/- ===== C9: updateMessageDeliveryStatus reducer ===== -/

/-- C9 (counterexample): an action carrying `delivered = false` and the
empty-string error leaves `last_error = null` on the matching undelivered
entry (JavaScript `error || null` treats `""` as falsy), so the entry does
not keep the action's error. -/
theorem updateDelivery_empty_error_cex :
    (updateMessageDeliveryStatus ⟨[], none, [⟨7, "t", false, 1, some "boom"⟩], false, none⟩
        7 false (some "")).undeliveredMessages = [⟨7, "t", false, 2, none⟩] ∧
    (none : Option String) ≠ some "" := by decide

/-- C9 (amended): for every SMS store state and action: a `delivered = true`
action leaves no message with the action's id in `undeliveredMessages`; a
`delivered = false` action bumps the first matching undelivered entry's
`delivery_attempts` by exactly 1 and stores the action's error normalized
by JS truthiness (`errOrNull`: a non-empty string is kept, an absent or
empty error becomes null); and when no stored message has the action's id
the state is unchanged. -/
theorem updateDelivery_spec (st : SMSState) (id : Nat) (e : Option String) :
    (∀ m ∈ (updateMessageDeliveryStatus st id true e).undeliveredMessages, m.id ≠ id) ∧
    (∀ m, st.undeliveredMessages.find? (fun x => x.id = id) = some m →
      ∃ l1 l2, st.undeliveredMessages = l1 ++ m :: l2 ∧ (∀ x ∈ l1, x.id ≠ id) ∧
        (updateMessageDeliveryStatus st id false e).undeliveredMessages =
          l1 ++ { m with delivery_attempts := m.delivery_attempts + 1,
                         last_error := errOrNull e } :: l2) ∧
    (∀ d, (∀ m ∈ st.messages, m.id ≠ id) → (∀ m ∈ st.undeliveredMessages, m.id ≠ id) →
      (∀ m, st.selectedMessage = some m → m.id ≠ id) →
      updateMessageDeliveryStatus st id d e = st) := by
  refine ⟨?_, ?_, ?_⟩
  · intro m hm
    unfold updateMessageDeliveryStatus at hm
    simp only at hm
    rcases hf : st.undeliveredMessages.find? (fun x => decide (x.id = id)) with _ | m0
    · rw [hf] at hm
      have := List.find?_eq_none.mp hf m hm
      simpa using this
    · rw [hf] at hm
      simp only [if_pos rfl] at hm
      have := (List.mem_filter.mp hm).2
      simpa using this
  · intro m hf
    obtain ⟨l1, l2, hl, hneg⟩ := find?_split hf
    refine ⟨l1, l2, hl, fun x hx => by simpa using hneg x hx, ?_⟩
    unfold updateMessageDeliveryStatus
    simp only [hf]
    rw [if_neg (by simp), hl]
    exact updFirst_append hneg (by simpa using List.find?_some hf)
  · intro d hmsg hund hsel
    obtain ⟨ms, sel, und, il, er⟩ := st
    simp only at hmsg hund hsel
    have h1 : updFirst (fun m => decide (m.id = id))
        (fun m => deliveryUpdate m d e) ms = ms :=
      updFirst_of_forall_neg (fun x hx => by simpa using hmsg x hx)
    have h2 : und.find? (fun m => decide (m.id = id)) = none :=
      List.find?_eq_none.mpr (fun x hx => by simpa using hund x hx)
    unfold updateMessageDeliveryStatus
    rcases sel with _ | m
    · simp [h1, h2]
    · simp [h1, h2, hsel m rfl]

/-- C9 witness: the three amended conclusions at a concrete store — the
delivered action empties the undelivered list of id 7, the failed action
bumps the attempt count of the first matching entry, and an action whose
id matches nothing leaves the state unchanged. -/
theorem updateDelivery_spec_witness :
    (∀ m ∈ (updateMessageDeliveryStatus
        ⟨[⟨7, "t", false, 1, none⟩], none, [⟨7, "t", false, 1, none⟩], false, none⟩
        7 true (some "x")).undeliveredMessages, m.id ≠ 7) ∧
    (∃ l1 l2, ([⟨7, "t", false, 1, none⟩] : List SMSMsg) = l1 ++ ⟨7, "t", false, 1, none⟩ :: l2 ∧
      (∀ x ∈ l1, x.id ≠ 7) ∧
      (updateMessageDeliveryStatus
        ⟨[⟨7, "t", false, 1, none⟩], none, [⟨7, "t", false, 1, none⟩], false, none⟩
        7 false (some "x")).undeliveredMessages = l1 ++ ⟨7, "t", false, 2, some "x"⟩ :: l2) ∧
    updateMessageDeliveryStatus
        ⟨[⟨7, "t", false, 1, none⟩], none, [⟨7, "t", false, 1, none⟩], false, none⟩
        9 true (some "x")
      = ⟨[⟨7, "t", false, 1, none⟩], none, [⟨7, "t", false, 1, none⟩], false, none⟩ := by
  refine ⟨(updateDelivery_spec _ 7 (some "x")).1, ?_, ?_⟩
  · have h := (updateDelivery_spec
      ⟨[⟨7, "t", false, 1, none⟩], none, [⟨7, "t", false, 1, none⟩], false, none⟩
      7 (some "x")).2.1 ⟨7, "t", false, 1, none⟩ (by decide)
    exact h
  · exact (updateDelivery_spec _ 9 (some "x")).2.2 true (by decide) (by decide)
      (fun m hm => by simp at hm)

/- ===== C8: SMS push retry outcome ===== -/

theorem pushRetry_all_fail (es : List String) (elast : String) (m : SMSMsg) :
    pushRetry m (es.map some ++ [some elast]) =
      { m with delivered := false, last_error := errOrNull (some elast),
               delivery_attempts := m.delivery_attempts + es.length + 1 } := by
  induction es generalizing m with
  | nil => simp [pushRetry, deliveryUpdate]
  | cons e es ih =>
    obtain ⟨i, t, dl, da, le⟩ := m
    simp [pushRetry, ih, deliveryUpdate]
    omega

theorem pushRetry_then_success (es : List String) (m : SMSMsg) :
    pushRetry m (es.map some ++ [none]) =
      { m with delivered := true, last_error := none,
               delivery_attempts := m.delivery_attempts + es.length + 1 } := by
  induction es generalizing m with
  | nil => simp [pushRetry, deliveryUpdate, errOrNull]
  | cons e es ih =>
    obtain ⟨i, t, dl, da, le⟩ := m
    simp [pushRetry, ih, deliveryUpdate]
    omega

/-- C8: a fresh SMS record (attempt count 0) whose Hub pushes fail on every
attempt of `es` and then succeed ends with `delivered = true` and attempt
count `|es| + 1` (the successful attempt's index, within the bounded
attempt list); a record whose pushes fail on all bounded attempts ends with
`delivered = false`, the full attempt count, and the final (non-empty)
error retained in `last_error`. -/
theorem pushRetry_spec (m : SMSMsg) (es : List String) (elast : String) :
    (m.delivery_attempts = 0 →
      (pushRetry m (es.map some ++ [none])).delivered = true ∧
      (pushRetry m (es.map some ++ [none])).delivery_attempts = es.length + 1) ∧
    (m.delivery_attempts = 0 → elast ≠ "" →
      (pushRetry m ((es ++ [elast]).map some)).delivered = false ∧
      (pushRetry m ((es ++ [elast]).map some)).delivery_attempts = es.length + 1 ∧
      (pushRetry m ((es ++ [elast]).map some)).last_error = some elast) := by
  constructor
  · intro h0
    rw [pushRetry_then_success]
    simp [h0]
  · intro h0 hne
    rw [show ((es ++ [elast]).map some) = es.map some ++ [some elast] by simp,
      pushRetry_all_fail]
    simp [h0, errOrNull, hne]

/-- C8 witness: three simulated network failures then a success end with
`delivered = true` and attempt count 4; four failures with no success end
with `delivered = false` and the last error `"E4"` retained. -/
theorem pushRetry_spec_witness :
    ((pushRetry ⟨1, "code", false, 0, none⟩ (["E1", "E2", "E3"].map some ++ [none])).delivered
        = true ∧
      (pushRetry ⟨1, "code", false, 0, none⟩
          (["E1", "E2", "E3"].map some ++ [none])).delivery_attempts = 4) ∧
    ((pushRetry ⟨1, "code", false, 0, none⟩ ((["E1", "E2", "E3"] ++ ["E4"]).map some)).delivered
        = false ∧
      (pushRetry ⟨1, "code", false, 0, none⟩
          ((["E1", "E2", "E3"] ++ ["E4"]).map some)).last_error = some "E4") := by
  have h := pushRetry_spec ⟨1, "code", false, 0, none⟩ ["E1", "E2", "E3"] "E4"
  have h1 := h.1 rfl
  have h2 := h.2 rfl (by decide)
  exact ⟨⟨h1.1, h1.2⟩, ⟨h2.1, h2.2.2⟩⟩

/- ===== C6, C7: GET_NUMBER failure path and FINISH_ACTIVATION ===== -/

open Bridge

/-- C6: a GET_NUMBER request that fails (no modem available, or every
candidate's usage count exhausted — both make the candidate search empty)
returns the typed NoCapacity error and leaves the whole registry state
unchanged: no modem is marked Busy and no activation row is created. -/
theorem getNumber_failure_no_mutation (s : State) (sv : String)
    (co opf : Option String) (s' : State)
    (h : step s (.getNumber sv co opf) = (s', Resp.noCapacity)) : s' = s := by
  simp only [step] at h
  split at h
  · injection h with h1 _
    exact h1.symm
  · injection h with _ h2
    exact Resp.noConfusion h2

/-- C6 witness: with no modems, GET_NUMBER fails and the state after the
call is the state before it. -/
theorem getNumber_failure_no_mutation_witness :
    (step emptyState (Op.getNumber "s1" none none)).1 = emptyState :=
  getNumber_failure_no_mutation emptyState "s1" none none _ rfl

/-- C7: FINISH_ACTIVATION whose activation id does not exist is rejected
with the typed not-found response and the whole state is unchanged; for an
existing id the supplied target status (1–10) is applied unconditionally,
acknowledged with ack. -/
theorem finishActivation_spec (s : State) (id st : Nat)
    (_hst : 1 ≤ st ∧ st ≤ 10) :
    (s.acts.length ≤ id →
      step s (.finishActivation id st) = (s, Resp.notFound)) ∧
    (∀ h : id < s.acts.length,
      (step s (.finishActivation id st)).2 = Resp.ack ∧
      ((step s (.finishActivation id st)).1.acts)[id]? =
        some { s.acts[id] with status := st }) := by
  constructor
  · intro hle
    simp only [step]
    rw [dif_neg (by omega)]
  · intro h
    constructor
    · simp only [step]
      rw [dif_pos h]
    · simp only [step]
      rw [dif_pos h]
      exact List.getElem?_set_self h

/-- C7 witness: finishing the unknown activation 3 on the one-modem state
is rejected with not-found and no change; after a GET_NUMBER, finishing the
real activation 0 into status 3 is acknowledged. -/
theorem finishActivation_spec_witness :
    step state0 (Op.finishActivation 3 2) = (state0, Resp.notFound) ∧
    (step (run state0 [Op.getNumber "s1" none none])
        (Op.finishActivation 0 3)).2 = Resp.ack := by
  constructor
  · exact (finishActivation_spec state0 3 2 (by decide)).1 (by decide)
  · exact ((finishActivation_spec (run state0 [Op.getNumber "s1" none none])
      0 3 (by decide)).2 (by decide)).1

/- ===== C2: only FINISH_ACTIVATION changes a status; replay idempotence ===== -/

theorem finish_usage_of_status_eq (s : State) (id st : Nat)
    (h : id < s.acts.length) (hstat : (s.acts[id]).status = st) :
    (step s (.finishActivation id st)).1.usage = s.usage := by
  simp only [step]
  rw [dif_pos h]
  have hcond : (decide (st = 4) && !(decide ((s.acts[id]).status = 4))) = false := by
    rcases eq_or_ne st 4 with h4 | h4
    · simp [h4, hstat]
    · simp [h4]
  simp [hcond]

/-- C2: an existing activation's status field changes only as a direct
result of a FINISH_ACTIVATION operation bearing that activation id — no
other operation of the surface (GET_NUMBER, inbound SMS handling, restart;
the model has no timer or internal actor, §3) modifies it — and replaying
the same FINISH_ACTIVATION a second time leaves every usage count exactly
as after the first call (idempotent replays do not double-count). -/
theorem finish_only_mutator (s : State) :
    (∀ op id a a', s.acts[id]? = some a →
      ((step s op).1.acts)[id]? = some a' → a'.status ≠ a.status →
      ∃ st, op = Op.finishActivation id st) ∧
    (∀ id st,
      (step (step s (.finishActivation id st)).1 (.finishActivation id st)).1.usage
        = (step s (.finishActivation id st)).1.usage) := by
  constructor
  · intro op id a a' h1 h2 h3
    have hid : id < s.acts.length := (List.getElem?_eq_some.mp h1).1
    cases op with
    | getNumber sv co opf =>
      exfalso
      rcases hf : s.modems.find? (candOk s sv co opf) with _ | m
      · simp only [step, hf] at h2
        rw [h1] at h2
        injection h2 with he
        exact h3 (by rw [← he])
      · simp only [step, hf] at h2
        rw [List.getElem?_append_left hid, h1] at h2
        injection h2 with he
        exact h3 (by rw [← he])
    | finishActivation i stt =>
      by_cases hii : i = id
      · exact ⟨stt, by rw [hii]⟩
      · exfalso
        by_cases hlt : i < s.acts.length
        · simp only [step] at h2
          rw [dif_pos hlt] at h2
          simp only at h2
          rw [List.getElem?_set_ne hii, h1] at h2
          injection h2 with he
          exact h3 (by rw [← he])
        · simp only [step] at h2
          rw [dif_neg hlt] at h2
          rw [h1] at h2
          injection h2 with he
          exact h3 (by rw [← he])
    | smsReceived port sender text =>
      exfalso
      simp only [step] at h2
      rw [h1] at h2
      injection h2 with he
      exact h3 (by rw [← he])
    | restart =>
      exfalso
      simp only [step] at h2
      rw [h1] at h2
      injection h2 with he
      exact h3 (by rw [← he])
  · intro id st
    by_cases h : id < s.acts.length
    · have e1 : (step s (.finishActivation id st)).1.acts
          = s.acts.set id { s.acts[id] with status := st } := by
        simp only [step]
        rw [dif_pos h]
      have h' : id < ((step s (.finishActivation id st)).1.acts).length := by
        rw [e1, List.length_set]
        exact h
      have hval : ((step s (.finishActivation id st)).1.acts)[id]?
          = some { s.acts[id] with status := st } := by
        rw [e1]
        exact List.getElem?_set_self h
      have hstat : (((step s (.finishActivation id st)).1.acts)[id]).status = st := by
        have hh := (List.getElem?_eq_getElem h').symm.trans hval
        injection hh with hh'
        rw [hh']
      exact finish_usage_of_status_eq _ id st h' hstat
    · have e0 : (step s (.finishActivation id st)).1 = s := by
        simp only [step]
        rw [dif_neg h]
      rw [e0, e0]

/-- C2 witness: after a GET_NUMBER creates activation 0 in status Waiting,
the operation that changes its status to 2 is a FINISH_ACTIVATION bearing
id 0, and replaying FINISH_ACTIVATION(0, 4) leaves the usage table of the
first application unchanged. -/
theorem finish_only_mutator_witness :
    (∃ st, Op.finishActivation 0 2 = Op.finishActivation 0 st) ∧
    (step (step (run state0 [Op.getNumber "s1" none none])
          (.finishActivation 0 4)).1 (.finishActivation 0 4)).1.usage
      = (step (run state0 [Op.getNumber "s1" none none])
          (.finishActivation 0 4)).1.usage := by
  constructor
  · exact (finish_only_mutator (run state0 [Op.getNumber "s1" none none])).1
      (Op.finishActivation 0 2) 0 ⟨"ph", "s1", 1⟩ ⟨"ph", "s1", 2⟩ rfl rfl (by decide)
  · exact (finish_only_mutator (run state0 [Op.getNumber "s1" none none])).2 0 4

/- ===== C1: usage-count discipline ===== -/

theorem fupdate_self (u : String → Option (String × Nat)) (k : String)
    (v : Option (String × Nat)) : fupdate u k v k = v := if_pos rfl

theorem fupdate_ne (u : String → Option (String × Nat)) (k p : String)
    (v : Option (String × Nat)) (h : p ≠ k) : fupdate u k v p = u p := if_neg h

theorem usageCountFor_congr (u u' : String → Option (String × Nat)) (p sv : String)
    (h : u p = u' p) : usageCountFor u p sv = usageCountFor u' p sv := by
  unfold usageCountFor
  rw [h]

theorem usageCountFor_fupdate_le (u : String → Option (String × Nat))
    (q sv' p sv : String) :
    usageCountFor (fupdate u q (some (sv', usageCountFor u q sv'))) p sv
      ≤ usageCountFor u p sv := by
  by_cases hpq : p = q
  · subst hpq
    by_cases hsv : sv' = sv
    · subst hsv
      unfold usageCountFor
      rw [fupdate_self]
      simp
    · conv_lhs => unfold usageCountFor
      rw [fupdate_self]
      simp [hsv]
  · rw [usageCountFor_congr _ u p sv (fupdate_ne u q p _ hpq)]

theorem finish_usage_cases (s : State) (id st : Nat) (hl : id < s.acts.length) :
    (step s (.finishActivation id st)).1.usage = s.usage ∨
    (st = 4 ∧ (s.acts[id]).status ≠ 4 ∧
     ∃ c, s.usage (s.acts[id]).phone = some ((s.acts[id]).service, c) ∧
       (step s (.finishActivation id st)).1.usage
         = fupdate s.usage (s.acts[id]).phone (some ((s.acts[id]).service, c + 1))) := by
  simp only [step]
  rw [dif_pos hl]
  rcases hcond : (decide (st = 4) && !(decide ((s.acts[id]).status = 4))) with _ | _
  · left
    simp [hcond]
  · have h4 : st = 4 ∧ (s.acts[id]).status ≠ 4 := by
      constructor
      · by_contra hc
        simp [hc] at hcond
      · by_contra hc
        simp [hc] at hcond
    rcases hu : s.usage (s.acts[id]).phone with _ | ⟨sv0, c⟩
    · left
      simp [hcond, hu]
    · by_cases hs0 : sv0 = (s.acts[id]).service
      · right
        refine ⟨h4.1, h4.2, c, ?_, ?_⟩
        · rw [hs0]
        · simp only [hcond, hu, hs0]
          simp
      · left
        simp [hcond, hu, hs0]

theorem finish_acts_set (s : State) (id st : Nat) (hl : id < s.acts.length) :
    (step s (.finishActivation id st)).1.acts
      = s.acts.set id ⟨(s.acts[id]).phone, (s.acts[id]).service, st⟩ := by
  simp only [step]
  rw [dif_pos hl]

/-- C1 (counterexample): the Hub can replay FINISH_ACTIVATION into status 4
after moving the activation out of it; along `toggleTrace` (one GET_NUMBER
for service "s1", then five transitions into status 4 interleaved with
transitions to status 3) the usage count of (phone "ph", service "s1")
reaches 5, so the claim's "count never exceeds 4" is false.  `run state0
toggleTrace` is reachable from the one-modem starting state by protocol
operations alone. -/
theorem usage_count_exceeds_four_cex :
    4 < usageCountFor (run state0 toggleTrace).usage "ph" "s1" := by decide

/-- C1 (amended): for every state, phone and service: the usage count of
the (phone, service) pair strictly increases only when a FINISH_ACTIVATION
transitions that pair's activation into status 4 from a different status;
a successful GET_NUMBER binding a different service to the phone resets
the pair's count to 0; and a successful GET_NUMBER for the service never
returns a phone whose count for it has reached 4 (exclusion).  The
original bound "count never exceeds 4" does not hold when the Hub drives
repeated transitions into status 4 (see the counterexample); exclusion at
count ≥ 4 holds regardless. -/
theorem usage_count_spec (s : State) (p sv : String) :
    (∀ op, usageCountFor s.usage p sv < usageCountFor ((step s op).1).usage p sv →
      ∃ id, op = Op.finishActivation id 4 ∧
        ∃ h : id < s.acts.length, (s.acts[id]).phone = p ∧ (s.acts[id]).service = sv ∧
          (s.acts[id]).status ≠ 4 ∧
          ((step s op).1.acts)[id]? = some { s.acts[id] with status := 4 }) ∧
    (∀ sv' co opf s' idr, sv' ≠ sv →
      step s (.getNumber sv' co opf) = (s', Resp.number idr p) →
      usageCountFor s'.usage p sv = 0) ∧
    (∀ co opf s' idr, step s (.getNumber sv co opf) = (s', Resp.number idr p) →
      usageCountFor s.usage p sv < 4) := by
  refine ⟨?_, ?_, ?_⟩
  · intro op hlt
    cases op with
    | getNumber sv' co opf =>
      exfalso
      rcases hf : s.modems.find? (candOk s sv' co opf) with _ | m
      · simp only [step, hf] at hlt
        exact absurd hlt (lt_irrefl _)
      · have e : (step s (.getNumber sv' co opf)).1.usage
            = fupdate s.usage m.phone (some (sv', usageCountFor s.usage m.phone sv')) := by
          simp only [step, hf]
        rw [e] at hlt
        exact absurd hlt (not_lt.mpr (usageCountFor_fupdate_le s.usage m.phone sv' p sv))
    | finishActivation id st =>
      by_cases hl : id < s.acts.length
      · rcases finish_usage_cases s id st hl with e | ⟨h4, hne4, c, hu, e⟩
        · exfalso
          rw [e] at hlt
          exact absurd hlt (lt_irrefl _)
        · rw [e] at hlt
          by_cases hp : p = (s.acts[id]).phone
          · subst hp
            by_cases hsv : (s.acts[id]).service = sv
            · refine ⟨id, by rw [h4], hl, rfl, hsv, hne4, ?_⟩
              rw [finish_acts_set s id st hl, ← h4]
              exact List.getElem?_set_self hl
            · exfalso
              have eold : usageCountFor s.usage (s.acts[id]).phone sv = 0 := by
                unfold usageCountFor
                rw [hu]
                simp [hsv]
              have enew : usageCountFor
                  (fupdate s.usage (s.acts[id]).phone (some ((s.acts[id]).service, c + 1)))
                  (s.acts[id]).phone sv = 0 := by
                unfold usageCountFor
                rw [fupdate_self]
                simp [hsv]
              rw [eold, enew] at hlt
              exact absurd hlt (lt_irrefl _)
          · exfalso
            rw [usageCountFor_congr _ s.usage p sv
              (fupdate_ne s.usage (s.acts[id]).phone p _ hp)] at hlt
            exact absurd hlt (lt_irrefl _)
      · exfalso
        have e : (step s (.finishActivation id st)).1 = s := by
          simp only [step]
          rw [dif_neg hl]
        rw [e] at hlt
        exact absurd hlt (lt_irrefl _)
    | smsReceived port sender text =>
      exfalso
      simp only [step] at hlt
      exact absurd hlt (lt_irrefl _)
    | restart =>
      exfalso
      simp only [step] at hlt
      exact absurd hlt (lt_irrefl _)
  · intro sv' co opf s' idr hne hstep
    rcases hf : s.modems.find? (candOk s sv' co opf) with _ | m
    · simp only [step, hf] at hstep
      injection hstep with _ h2
      exact Resp.noConfusion h2
    · simp only [step, hf] at hstep
      injection hstep with h1 h2
      injection h2 with _ hp
      subst hp
      have hs' : s'.usage
          = fupdate s.usage m.phone (some (sv', usageCountFor s.usage m.phone sv')) := by
        rw [← h1]
      rw [hs']
      unfold usageCountFor
      rw [fupdate_self]
      simp [hne]
  · intro co opf s' idr hstep
    rcases hf : s.modems.find? (candOk s sv co opf) with _ | m
    · simp only [step, hf] at hstep
      injection hstep with _ h2
      exact Resp.noConfusion h2
    · simp only [step, hf] at hstep
      injection hstep with h1 h2
      injection h2 with _ hp
      have hcand := List.find?_some hf
      simp only [candOk, Bool.and_eq_true, decide_eq_true_eq] at hcand
      rw [← hp]
      exact hcand.2

/-- C1 witness: binding service "s2" to the phone resets the count for
("ph", "s1") to 0, and GET_NUMBER for "s1" succeeds on the fresh one-modem
state only because the count for ("ph", "s1") is below 4. -/
theorem usage_count_spec_witness :
    usageCountFor ((step state0 (Op.getNumber "s2" none none)).1).usage "ph" "s1" = 0 ∧
    usageCountFor state0.usage "ph" "s1" < 4 := by
  constructor
  · exact (usage_count_spec state0 "ph" "s1").2.1 "s2" none none _ 0 (by decide) rfl
  · exact (usage_count_spec state0 "ph" "s1").2.2 none none _ 0 rfl

/- ===== C4: at most one active activation per phone ===== -/

/-- C4 (counterexample): along `reviveTrace` (reserve the phone, finish the
activation into 3, reserve the phone again for a second activation, then
unconditionally finish the first activation back into the active status 2)
two activations bound to phone "ph" are active at once, so the invariant is
not preserved by every FINISH_ACTIVATION.  `run state0 reviveTrace` is
reachable from the one-modem starting state by protocol operations alone. -/
theorem two_active_on_phone_cex :
    1 < activePerPhone (run state0 reviveTrace) "ph" := by decide

/-- C4 (amended): the at-most-one-active-activation-per-phone invariant is
preserved by GET_NUMBER (success and failure), by SMS handling, by restart,
and by every FINISH_ACTIVATION except one that moves a currently non-active
activation into an active status (1 Waiting / 2 Ready): one step preserves
the invariant whenever a FINISH_ACTIVATION into an active status targets an
activation that is already active.  Because FINISH_ACTIVATION is applied
unconditionally (C7), the excluded case is reachable and then the invariant
breaks (see the counterexample). -/
theorem active_invariant_preserved (s : State) (op : Op)
    (hinv : ∀ p, activePerPhone s p ≤ 1)
    (hop : ∀ id st, op = Op.finishActivation id st → isActive st = true →
      ∀ h : id < s.acts.length, isActive ((s.acts[id]).status) = true) :
    ∀ p, activePerPhone (step s op).1 p ≤ 1 := by
  cases op with
  | getNumber sv co opf =>
    rcases hf : s.modems.find? (candOk s sv co opf) with _ | m
    · intro p
      have e : (step s (.getNumber sv co opf)).1 = s := by
        simp only [step, hf]
      rw [e]
      exact hinv p
    · intro p
      have e : (step s (.getNumber sv co opf)).1.acts
          = s.acts ++ [⟨m.phone, sv, 1⟩] := by
        simp only [step, hf]
      simp only [activePerPhone, e, List.countP_append]
      by_cases hp : m.phone = p
      · have hcand := List.find?_some hf
        simp only [candOk, Bool.and_eq_true] at hcand
        have hno : hasActiveBinding s.acts m.phone = false := by
          simpa using hcand.1.2
        have hall := List.any_eq_false.mp hno
        have h0 : s.acts.countP (fun a => decide (a.phone = p) && isActive a.status) = 0 := by
          refine List.countP_eq_zero.mpr (fun a ha => ?_)
          have := hall a ha
          rw [← hp]
          simpa using this
        rw [h0]
        have h1 : List.countP (fun a => decide (a.phone = p) && isActive a.status)
            [(⟨m.phone, sv, 1⟩ : Activation)] ≤ 1 := by
          simp only [List.countP_cons, List.countP_nil]
          split <;> simp
        omega
      · have h1 : List.countP (fun a => decide (a.phone = p) && isActive a.status)
            [(⟨m.phone, sv, 1⟩ : Activation)] = 0 := by
          simp [List.countP_cons, hp]
        rw [h1]
        have := hinv p
        simp only [activePerPhone] at this
        omega
  | finishActivation id st =>
    by_cases hl : id < s.acts.length
    · intro p
      have e := finish_acts_set s id st hl
      have key := countP_set s.acts id
        (⟨(s.acts[id]).phone, (s.acts[id]).service, st⟩ : Activation)
        (fun a => decide (a.phone = p) && isActive a.status) hl
      have hbound := hinv p
      simp only [activePerPhone] at hbound ⊢
      rw [e]
      rcases hact : isActive st with _ | _
      · have hax : (decide ((⟨(s.acts[id]).phone, (s.acts[id]).service, st⟩
              : Activation).phone = p)
            && isActive (⟨(s.acts[id]).phone, (s.acts[id]).service, st⟩
              : Activation).status) = false := by
          simp [hact]
        rw [hax] at key
        simp only [Bool.false_eq_true, if_false] at key
        omega
      · have ha := hop id st rfl (by rw [hact]) hl
        have hax : (decide ((⟨(s.acts[id]).phone, (s.acts[id]).service, st⟩
              : Activation).phone = p)
              && isActive (⟨(s.acts[id]).phone, (s.acts[id]).service, st⟩
                : Activation).status)
            = (decide ((s.acts[id]).phone = p) && isActive ((s.acts[id]).status)) := by
          simp [hact, ha]
        rw [hax] at key
        omega
    · intro p
      have e : (step s (.finishActivation id st)).1 = s := by
        simp only [step]
        rw [dif_neg hl]
      rw [e]
      exact hinv p
  | smsReceived port sender text =>
    intro p
    have e : (step s (.smsReceived port sender text)).1.acts = s.acts := by
      simp only [step]
    simp only [activePerPhone, e]
    have := hinv p
    simpa [activePerPhone] using this
  | restart =>
    intro p
    exact hinv p

/-- C4 witness: the amended preservation applied at the one-modem starting
state and a GET_NUMBER step — after the reservation, at most one active
activation is bound to phone "ph". -/
theorem active_invariant_preserved_witness :
    activePerPhone (step state0 (Op.getNumber "s1" none none)).1 "ph" ≤ 1 :=
  active_invariant_preserved state0 (Op.getNumber "s1" none none)
    (fun p => by simp [activePerPhone, state0])
    (fun id st h => Op.noConfusion h) "ph"

/- ===== C5: exclusive reservation of the single available modem ===== -/

theorem find?_of_filter_eq_singleton {α : Type} {p : α → Bool} {l : List α} {m : α}
    (h : l.filter p = [m]) : l.find? p = some m := by
  induction l with
  | nil => simp at h
  | cons x xs ih =>
    by_cases hx : p x = true
    · rw [List.filter_cons_of_pos hx] at h
      injection h with h1 _
      rw [List.find?_cons_of_pos xs hx, h1]
    · rw [List.filter_cons_of_neg hx] at h
      rw [List.find?_cons_of_neg xs hx]
      exact ih h

theorem usageCountFor_fupdate_preserve (u : String → Option (String × Nat))
    (q p sv : String) :
    usageCountFor (fupdate u q (some (sv, usageCountFor u q sv))) p sv
      = usageCountFor u p sv := by
  by_cases hpq : p = q
  · subst hpq
    conv_lhs => unfold usageCountFor
    rw [fupdate_self]
    show (if sv = sv then usageCountFor u p sv else 0) = usageCountFor u p sv
    rw [if_pos rfl]
  · exact usageCountFor_congr _ _ _ _ (fupdate_ne u q p _ hpq)

theorem getNumber_resp_of_none (s : State) (sv : String) (co opf : Option String)
    (h : s.modems.find? (candOk s sv co opf) = none) :
    step s (.getNumber sv co opf) = (s, Resp.noCapacity) := by
  simp only [step, h]

/-- C5: reservation is the registry's atomic Ready→Busy compare-and-swap,
and GET_NUMBER calls serialize through it (the model's `step` is that
serialization).  When exactly one modem is a candidate for the service and
criteria, a GET_NUMBER succeeds with that modem's phone number, every copy
of that modem's port is left Busy, and a second GET_NUMBER with the same
criteria receives the typed NoCapacity error: two racing reservations never
both succeed for the same modem. -/
theorem reserve_exclusive (s : State) (sv : String) (co opf : Option String)
    (m : Modem) (hone : s.modems.filter (candOk s sv co opf) = [m]) :
    m.mstatus = ModemStatus.ready ∧
    (step s (.getNumber sv co opf)).2 = Resp.number s.acts.length m.phone ∧
    (∀ m' ∈ (step s (.getNumber sv co opf)).1.modems,
        m'.port = m.port → m'.mstatus = ModemStatus.busy) ∧
    (step (step s (.getNumber sv co opf)).1 (.getNumber sv co opf)).2
      = Resp.noCapacity := by
  have hf : s.modems.find? (candOk s sv co opf) = some m :=
    find?_of_filter_eq_singleton hone
  have hcand := List.find?_some hf
  have e1 : (step s (.getNumber sv co opf)).1.modems
      = s.modems.map (fun m' => if m'.port = m.port then
          { m' with mstatus := ModemStatus.busy } else m') := by
    simp only [step, hf]
  have e2 : (step s (.getNumber sv co opf)).1.acts
      = s.acts ++ [⟨m.phone, sv, 1⟩] := by
    simp only [step, hf]
  have e3 : (step s (.getNumber sv co opf)).1.usage
      = fupdate s.usage m.phone (some (sv, usageCountFor s.usage m.phone sv)) := by
    simp only [step, hf]
  refine ⟨?_, ?_, ?_, ?_⟩
  · have hc := hcand
    simp only [candOk, Bool.and_eq_true, decide_eq_true_eq] at hc
    exact hc.1.1.1.1
  · simp only [step, hf]
  · intro m' hm' hport
    rw [e1] at hm'
    obtain ⟨x, hx, hfx⟩ := List.mem_map.mp hm'
    by_cases hxp : x.port = m.port
    · rw [if_pos hxp] at hfx
      rw [← hfx]
    · rw [if_neg hxp] at hfx
      rw [← hfx] at hport
      exact absurd hport hxp
  · have hnone : ((step s (.getNumber sv co opf)).1.modems).find?
        (candOk (step s (.getNumber sv co opf)).1 sv co opf) = none := by
      refine List.find?_eq_none.mpr (fun x hx => ?_)
      rw [e1] at hx
      obtain ⟨m', hm', hfm⟩ := List.mem_map.mp hx
      by_cases hp : m'.port = m.port
      · rw [if_pos hp] at hfm
        intro hcx
        rw [← hfm] at hcx
        simp [candOk] at hcx
      · rw [if_neg hp] at hfm
        subst hfm
        intro hcx
        have hcs : candOk s sv co opf m' = true := by
          simp only [candOk, Bool.and_eq_true] at hcx ⊢
          refine ⟨⟨⟨⟨hcx.1.1.1.1, hcx.1.1.1.2⟩, hcx.1.1.2⟩, ?_⟩, ?_⟩
          · have hb := hcx.1.2
            rw [e2] at hb
            simp only [hasActiveBinding, List.any_append, Bool.not_or,
              Bool.and_eq_true] at hb
            simp only [hasActiveBinding]
            exact hb.1
          · have hu := hcx.2
            rw [e3] at hu
            rwa [usageCountFor_fupdate_preserve] at hu
        have hmem : m' ∈ s.modems.filter (candOk s sv co opf) :=
          List.mem_filter.mpr ⟨hm', hcs⟩
        rw [hone] at hmem
        simp at hmem
        exact hp (by rw [hmem])
    rw [getNumber_resp_of_none _ sv co opf hnone]

/-- C5 witness: on the one-modem starting state the first GET_NUMBER for
"s1" succeeds with phone "ph" and the second one receives NoCapacity. -/
theorem reserve_exclusive_witness :
    (step state0 (Op.getNumber "s1" none none)).2 = Resp.number 0 "ph" ∧
    (step (step state0 (Op.getNumber "s1" none none)).1
        (Op.getNumber "s1" none none)).2 = Resp.noCapacity := by
  have h := reserve_exclusive state0 "s1" none none oneModem (by decide)
  exact ⟨h.2.1, h.2.2.2⟩
